import Mathlib

set_option maxHeartbeats 1000000

/-!
Shallow embedding of the conductor deployment coordinator (src/main.rs) and
proofs about its HTTP trigger, redeploy/prune operations, periodic loops and
configuration loading.
-/

namespace Conductor

/-- One managed composition, main.rs 147-150: a struct whose single field
`work` is the working directory in which the redeploy command runs. -/
structure ManagedComposition where
  work : String

/-- The configuration struct, main.rs 136-145.  The serde-flattened
`HashMap<String, ManagedComposition>` field `extra` is modelled as an
association list; TOML rejects duplicate top-level keys, so the keys are
unique in any loaded document. -/
structure Config where
  port : Nat
  token : String
  force_update_interval : Option Nat
  prune_interval : Option Nat
  extra : List (String × ManagedComposition)

/-- The captured result of a finished external process, as
`wait_with_output` returns it: the exit-status success flag and the raw
stdout/stderr byte streams. -/
structure Output where
  success : Bool
  stdout : List Nat
  stderr : List Nat

/-- The observable result of one external-process invocation through
`spawn()?` followed by `wait_with_output().await?` (main.rs 84-92 and
119-125): either an OS-level error propagated by `?` from either call, or a
finished process with its captured output. -/
inductive RunResult where
  | ioError (msg : String)
  | finished (out : Output)

/-- An external command invocation: program, arguments and the optional
working directory given to `current_dir`. -/
structure Command where
  program : String
  args : List String
  cwd : Option String

/-- The redeploy command built in `restart`, main.rs 84-91. -/
def restartCommand (work : String) : Command :=
  ⟨"docker", ["compose", "up", "-d", "--pull", "always"], some work⟩

/-- The prune command built in `do_prune`, main.rs 119-124. -/
def pruneCommand : Command :=
  ⟨"docker", ["image", "prune", "-a", "-f"], none⟩

/-- Decides whether a byte is a UTF-8 continuation byte (0x80..=0xBF). -/
def isCont (b : Nat) : Bool := decide (0x80 ≤ b ∧ b ≤ 0xBF)

/-- The replacement character U+FFFD used by lossy decoding. -/
def replacementChar : Char := Char.ofNat 0xFFFD

/-- Fuel-indexed body of `fromUtf8Lossy`; the fuel only bounds recursion and
any fuel at least the length of the byte list gives the decoded text.
Invalid sequences are replaced by U+FFFD per maximal valid prefix, as Rust's
`String::from_utf8_lossy` does. -/
def utf8LossyAux : Nat → List Nat → List Char
  | 0, _ => []
  | _ + 1, [] => []
  | fuel + 1, b :: rest =>
    if b ≤ 0x7F then Char.ofNat b :: utf8LossyAux fuel rest
    else if 0xC2 ≤ b ∧ b ≤ 0xDF then
      match rest with
      | b1 :: r1 =>
        if isCont b1 then
          Char.ofNat ((b - 0xC0) * 0x40 + (b1 - 0x80)) :: utf8LossyAux fuel r1
        else replacementChar :: utf8LossyAux fuel rest
      | [] => replacementChar :: utf8LossyAux fuel []
    else if 0xE0 ≤ b ∧ b ≤ 0xEF then
      match rest with
      | b1 :: r1 =>
        if (if b = 0xE0 then 0xA0 else 0x80) ≤ b1 ∧ b1 ≤ (if b = 0xED then 0x9F else 0xBF) then
          match r1 with
          | b2 :: r2 =>
            if isCont b2 then
              Char.ofNat ((b - 0xE0) * 0x1000 + (b1 - 0x80) * 0x40 + (b2 - 0x80)) ::
                utf8LossyAux fuel r2
            else replacementChar :: utf8LossyAux fuel r1
          | [] => replacementChar :: utf8LossyAux fuel []
        else replacementChar :: utf8LossyAux fuel rest
      | [] => replacementChar :: utf8LossyAux fuel []
    else if 0xF0 ≤ b ∧ b ≤ 0xF4 then
      match rest with
      | b1 :: r1 =>
        if (if b = 0xF0 then 0x90 else 0x80) ≤ b1 ∧ b1 ≤ (if b = 0xF4 then 0x8F else 0xBF) then
          match r1 with
          | b2 :: r2 =>
            if isCont b2 then
              match r2 with
              | b3 :: r3 =>
                if isCont b3 then
                  Char.ofNat ((b - 0xF0) * 0x40000 + (b1 - 0x80) * 0x1000 +
                      (b2 - 0x80) * 0x40 + (b3 - 0x80)) :: utf8LossyAux fuel r3
                else replacementChar :: utf8LossyAux fuel r2
              | [] => replacementChar :: utf8LossyAux fuel []
            else replacementChar :: utf8LossyAux fuel r1
          | [] => replacementChar :: utf8LossyAux fuel []
        else replacementChar :: utf8LossyAux fuel rest
      | [] => replacementChar :: utf8LossyAux fuel []
    else replacementChar :: utf8LossyAux fuel rest

/-- Models `String::from_utf8_lossy` (main.rs 95-96 and 128-129): decode the
byte stream as UTF-8, replacing malformed sequences with U+FFFD instead of
failing. -/
def fromUtf8Lossy (bs : List Nat) : String := String.mk (utf8LossyAux bs.length bs)

/-- The error enum, main.rs 156-168.  The `Io` variant abstracts the carried
`std::io::Error` to its message. -/
inductive Error where
  | Io (msg : String)
  | PullFailed (stdout stderr : String)
  | PruneFailed (stdout stderr : String)
  | NoComposition (name : String)
  | Unauthorized

/-- The status chosen by `impl IntoResponse for Error`, main.rs 173-179. -/
def Error.status : Error → Nat
  | .Io _ => 500
  | .PullFailed _ _ => 500
  | .PruneFailed _ _ => 500
  | .Unauthorized => 401
  | .NoComposition _ => 404

/-- The thiserror-derived Display text of each variant, main.rs 156-167,
used as the response body via `self.to_string()` (main.rs 180). -/
def Error.display : Error → String
  | .Io _ => "I/O error\n"
  | .PullFailed _ _ => "Docker pull failed\n"
  | .PruneFailed _ _ => "Docker prune failed\n"
  | .NoComposition name => "No composition found for path `" ++ name ++ "`\n"
  | .Unauthorized => "Unauthorized user attempted to access server\n"

/-- An HTTP response: status code and body text. -/
structure Response where
  status : Nat
  body : String

/-- `impl IntoResponse for Error`, main.rs 170-182: the matched status code
and the Display text as body. -/
def Error.intoResponse (e : Error) : Response := ⟨e.status, e.display⟩

/-- `restart`, main.rs 80-101: look the name up in the registry; absent names
fail with `NoComposition`; otherwise run the redeploy command in the
composition's working directory through the process environment `env`,
propagate an OS error as `Io`, classify a non-zero exit as `PullFailed`
carrying both captured streams lossily decoded, and a zero exit as success. -/
def restart (name : String) (config : Config) (env : Command → RunResult) :
    Except Error (Nat × String) :=
  match List.lookup name config.extra with
  | none => Except.error (Error.NoComposition name)
  | some composition =>
    match env (restartCommand composition.work) with
    | RunResult.ioError msg => Except.error (Error.Io msg)
    | RunResult.finished out =>
      if !out.success then
        Except.error
          (Error.PullFailed (fromUtf8Lossy out.stdout) (fromUtf8Lossy out.stderr))
      else
        Except.ok (200, "Success\n")

/-- `restart_web`, main.rs 47-61, once the header extractor has produced the
bearer token `auth`: compare with the configured token, then run `restart`.
The second component is the list of errors the handler itself writes to the
operator diagnostic channel (the `eprintln!` at main.rs 56). -/
def restart_web (name : String) (config : Config) (auth : String)
    (env : Command → RunResult) : Except Error (Nat × String) × List Error :=
  if config.token ≠ auth then
    (Except.error Error.Unauthorized, [])
  else
    match restart name config env with
    | Except.error source => (Except.error source, [source])
    | Except.ok _ => (Except.ok (200, "Success\n"), [])

/-- ASCII lower-casing of one character, as `eq_ignore_ascii_case` uses it. -/
def asciiLower (c : Char) : Char :=
  if 'A' ≤ c ∧ c ≤ 'Z' then Char.ofNat (c.toNat + 32) else c

/-- Models the `TypedHeader<Authorization<Bearer>>` extraction that axum runs
before `restart_web` (main.rs 50; the extractor itself lives in the
axum-extra/headers dependencies): the Authorization header must be present,
longer than the scheme, its first six bytes must equal "Bearer" ASCII
case-insensitively followed by a space, and the bearer token is everything
after that space.  When extraction fails the handler never runs and the
request is rejected with status 400. -/
def extractBearer : Option String → Option String
  | none => none
  | some h =>
    if 7 ≤ h.data.length ∧ (h.data.take 7).map asciiLower = "bearer ".data then
      some (String.mk (h.data.drop 7))
    else none

/-- Stand-in for the extractor's rejection body; its exact text belongs to the
library and only the 400 status is relied on here. -/
def typedHeaderRejectionBody : String := "invalid or missing authorization header"

/-- One request through the single route `/:path`, registered for every HTTP
method (main.rs 31): header extraction (400 rejection on failure), the
`restart_web` handler, then conversion of the result into a response.  The
second component collects every Error written to the diagnostic channel,
by the handler (main.rs 56) and by `into_response` (main.rs 172). -/
def serveRequest (_method : String) (header : Option String) (path : String)
    (config : Config) (env : Command → RunResult) : Response × List Error :=
  match extractBearer header with
  | none => (⟨400, typedHeaderRejectionBody⟩, [])
  | some tok =>
    match restart_web path config tok env with
    | (Except.ok res, log) => (⟨res.1, res.2⟩, log)
    | (Except.error e, log) => (e.intoResponse, log ++ [e])

/-- `do_prune`, main.rs 118-134: run the prune command, propagate an OS error
as `Io`, classify a non-zero exit as `PruneFailed` with both captured streams
lossily decoded. -/
def do_prune (env : Command → RunResult) : Except Error Unit :=
  match env pruneCommand with
  | RunResult.ioError msg => Except.error (Error.Io msg)
  | RunResult.finished out =>
    if !out.success then
      Except.error
        (Error.PruneFailed (fromUtf8Lossy out.stdout) (fromUtf8Lossy out.stderr))
    else
      Except.ok ()

/-- The body of one `prune` loop iteration after its tick, main.rs 112-114:
the errors it writes to the diagnostic channel. -/
def pruneIteration (env : Command → RunResult) : List Error :=
  match do_prune env with
  | Except.error source => [source]
  | Except.ok _ => []

/-- One sweep of the `restart_all` loop, main.rs 72-76: every registered name
is attempted through `restart`, sequentially in registry order, and each
attempt's outcome is recorded whether or not earlier attempts failed. -/
def restart_all_sweep (config : Config) (env : Command → RunResult) :
    List (String × Except Error (Nat × String)) :=
  (config.extra.map Prod.fst).map fun name => (name, restart name config env)

/-- The errors one sweep writes to the diagnostic channel, main.rs 73-75:
each failing attempt is logged individually and the sweep continues. -/
def sweepLog (config : Config) (env : Command → RunResult) : List Error :=
  (restart_all_sweep config env).filterMap fun p =>
    match p.2 with
    | Except.error e => some e
    | Except.ok _ => none

/-- One blocking `ticker.tick()` call of a `tokio::time::interval` configured
with `MissedTickBehavior::Delay` (main.rs 65-66 and 105-106).  Called at time
`t` with pending deadline `deadline`, it returns at the later of the two —
so an overdue tick fires immediately and exactly once — and the next deadline
is one full period after the return time: missed ticks are coalesced into the
single pending one, never queued.  Returns (fire time, next deadline). -/
def tickWait (period deadline t : Nat) : Nat × Nat :=
  if deadline ≤ t then (t, t + period) else (deadline, deadline + period)

/-- The tick fire times of the loop shape shared by `restart_all` and `prune`
(main.rs 67-77 and 107-115): each iteration waits for one tick, then runs a
body whose duration is taken from `durs`; `deadline` is the pending tick
deadline and `t` the time of the first `tick()` call. -/
def loopFires (period : Nat) : Nat → Nat → List Nat → List Nat
  | _, _, [] => []
  | deadline, t, dur :: durs =>
    (tickWait period deadline t).1 ::
      loopFires period (tickWait period deadline t).2
        ((tickWait period deadline t).1 + dur) durs

/-- The background workers `main` spawns into its JoinSet, main.rs 22-28. -/
inductive Worker where
  | restartAll (secs : Nat)
  | pruneTask (secs : Nat)

/-- Worker spawning in `main`, main.rs 22-28: the redeploy loop is spawned
exactly when `force_update_interval` is present, the prune loop exactly when
`prune_interval` is present. -/
def spawnWorkers (config : Config) : List Worker :=
  (match config.force_update_interval with
   | some secs => [Worker.restartAll secs]
   | none => []) ++
  (match config.prune_interval with
   | some secs => [Worker.pruneTask secs]
   | none => [])

/-- TOML values, as far as the Config deserialization distinguishes them. -/
inductive TomlValue where
  | int (n : Int)
  | str (s : String)
  | boolean (b : Bool)
  | table (kvs : List (String × TomlValue))

/-- The top-level keys consumed by the named fields of `Config`,
main.rs 138-142; every other key falls into the flattened map. -/
def reservedKeys : List String :=
  ["port", "token", "force_update_interval", "prune_interval"]

/-- The `port` field, main.rs 138-139 and 152-154: a u16 with serde default
`default_port()` = 8080 when the key is absent. -/
def parsePort : Option TomlValue → Option Nat
  | none => some 8080
  | some (TomlValue.int n) => if 0 ≤ n ∧ n ≤ 65535 then some n.toNat else none
  | some _ => none

/-- The required `token` string field, main.rs 140. -/
def parseToken : Option TomlValue → Option String
  | some (TomlValue.str s) => some s
  | _ => none

/-- An optional `u64` interval field, main.rs 141-142; TOML integers are
signed and a negative value does not deserialize into a u64. -/
def parseInterval : Option TomlValue → Option (Option Nat)
  | none => some none
  | some (TomlValue.int n) => if 0 ≤ n then some (some n.toNat) else none
  | some _ => none

/-- Deserializing one `ManagedComposition`, main.rs 147-150: a table with a
string field `work`; other fields of the table are ignored (serde default). -/
def parseComposition : TomlValue → Option ManagedComposition
  | TomlValue.table kvs =>
    match List.lookup "work" kvs with
    | some (TomlValue.str s) => some ⟨s⟩
    | _ => none
  | _ => none

/-- The flattened map field, main.rs 143-144: the reserved keys are consumed
by the struct fields, and every remaining top-level key must deserialize as a
`ManagedComposition` for loading to succeed. -/
def parseExtra : List (String × TomlValue) → Option (List (String × ManagedComposition))
  | [] => some []
  | (k, v) :: rest =>
    if k ∈ reservedKeys then parseExtra rest
    else
      match parseComposition v, parseExtra rest with
      | some c, some cs => some ((k, c) :: cs)
      | _, _ => none

/-- The top-level entries of a document that are not reserved field names:
the composition entries. -/
def nonReserved (doc : List (String × TomlValue)) : List (String × TomlValue) :=
  doc.filter fun p => decide (p.1 ∉ reservedKeys)

/-- `toml::from_str::<Config>` (main.rs 20) applied to an already-parsed
top-level key/value document. -/
def deserializeConfig (doc : List (String × TomlValue)) : Option Config :=
  match parsePort (List.lookup "port" doc), parseToken (List.lookup "token" doc),
      parseInterval (List.lookup "force_update_interval" doc),
      parseInterval (List.lookup "prune_interval" doc), parseExtra doc with
  | some port, some token, some fui, some pru, some extra =>
    some ⟨port, token, fui, pru, extra⟩
  | _, _, _, _, _ => none

/-- A concrete configuration used to evaluate the theorems below. -/
def cfgW : Config :=
  ⟨8080, "secret", some 300, some 3600, [("app", ⟨"/srv/app"⟩)]⟩

/-- A concrete configuration without periodic tasks. -/
def cfgC1 : Config := ⟨8080, "secret", none, none, [("app", ⟨"/srv/app"⟩)]⟩

/-- A concrete failing redeploy output. -/
def outFail : Output := ⟨false, [111, 107], [0xFF, 98]⟩

/-- A concrete failing prune output. -/
def pruneOutW : Output := ⟨false, [112], [113]⟩

/-- A process environment in which every invocation finishes with failure:
redeploy commands (those with a working directory) produce `outFail`, the
prune command produces `pruneOutW`. -/
def envFail : Command → RunResult := fun c =>
  match c.cwd with
  | some _ => RunResult.finished outFail
  | none => RunResult.finished pruneOutW

/-- A process environment in which every invocation succeeds cleanly. -/
def envOk : Command → RunResult := fun _ => RunResult.finished ⟨true, [], []⟩

/-- What a spawned child process itself does: its exit status and the bytes
it writes to its standard output and standard error. -/
structure ChildBehavior where
  exitSuccess : Bool
  writtenStdout : List Nat
  writtenStderr : List Nat

/-- Result of launching a child: an OS-level error, or a child that ran. -/
inductive ChildRunResult where
  | ioError (msg : String)
  | ran (child : ChildBehavior)

/-- `wait_with_output` for a child spawned with `spawn()` and no stdio
configuration, as in main.rs 84-91 and 119-124: `Command::spawn` defaults
stdout and stderr to inherit, and `wait_with_output` collects only from
piped handles, so the returned `Output` has empty captured buffers no matter
what the child wrote (the child's output goes to the parent's console). -/
def waitWithOutputInherited (child : ChildBehavior) : Output :=
  ⟨child.exitSuccess, [], []⟩

/-- The process environment `restart`/`do_prune` actually observe, given the
behavior of the children themselves: no stream is piped, so every finished
invocation yields empty captured output. -/
def runInherited (childEnv : Command → ChildRunResult) : Command → RunResult :=
  fun c =>
    match childEnv c with
    | ChildRunResult.ioError msg => RunResult.ioError msg
    | ChildRunResult.ran child => RunResult.finished (waitWithOutputInherited child)

/-- A concrete child that writes "boom" to its standard error and exits with
non-zero status. -/
def childBoom : ChildBehavior := ⟨false, [], [98, 111, 111, 109]⟩

/-- A child environment in which every invocation runs `childBoom`. -/
def childEnvBoom : Command → ChildRunResult := fun _ => ChildRunResult.ran childBoom

/-- A concrete configuration document with one composition entry. -/
def docW : List (String × TomlValue) :=
  [("token", TomlValue.str "secret"),
   ("app", TomlValue.table [("work", TomlValue.str "/srv/app")])]

/-- The configuration `docW` loads to. -/
def cfgFromDocW : Config := ⟨8080, "secret", none, none, [("app", ⟨"/srv/app"⟩)]⟩

/-- A well-formed bearer header round-trips through the extractor. -/
theorem extractBearer_bearer (t : String) :
    extractBearer (some ("Bearer " ++ t)) = some t := by
  have hdata : ("Bearer " ++ t).data = "Bearer ".data ++ t.data := by
    cases t; rfl
  have hlen : ("Bearer ".data).length = 7 := by decide
  show (if 7 ≤ ("Bearer " ++ t).data.length ∧
      (("Bearer " ++ t).data.take 7).map asciiLower = "bearer ".data then
      some (String.mk (("Bearer " ++ t).data.drop 7))
    else none) = some t
  rw [hdata, if_pos, List.drop_left' hlen]
  refine ⟨by rw [List.length_append, hlen]; omega, ?_⟩
  rw [List.take_left' hlen]
  decide

/-- Claim C3: the redeploy operation's four outcomes are exhaustive and each
holds exactly in its stated situation: `NoComposition` iff the name is absent
from the registry; given the registered composition, `Io` iff the process
runner reports an OS error, `PullFailed` iff the process finishes with
non-zero status, and success iff it finishes with zero status. -/
theorem restart_outcomes_exhaustive (name : String) (config : Config)
    (env : Command → RunResult) :
    (restart name config env = Except.error (Error.NoComposition name) ↔
      List.lookup name config.extra = none)
    ∧ (∀ composition, List.lookup name config.extra = some composition →
        ((∃ msg, restart name config env = Except.error (Error.Io msg)) ↔
          ∃ msg, env (restartCommand composition.work) = RunResult.ioError msg)
        ∧ ((∃ s t, restart name config env = Except.error (Error.PullFailed s t)) ↔
          ∃ out, env (restartCommand composition.work) = RunResult.finished out ∧
            out.success = false)
        ∧ (restart name config env = Except.ok (200, "Success\n") ↔
          ∃ out, env (restartCommand composition.work) = RunResult.finished out ∧
            out.success = true))
    ∧ (restart name config env = Except.ok (200, "Success\n")
      ∨ restart name config env = Except.error (Error.NoComposition name)
      ∨ (∃ msg, restart name config env = Except.error (Error.Io msg))
      ∨ (∃ s t, restart name config env = Except.error (Error.PullFailed s t))) := by
  cases h : List.lookup name config.extra with
  | none =>
    have hr : restart name config env = Except.error (Error.NoComposition name) := by
      simp [restart, h]
    refine ⟨by simp [hr, h], ?_, Or.inr (Or.inl hr)⟩
    intro composition hc
    exact Option.noConfusion hc
  | some composition =>
    have hiff : ∀ composition', some composition = some composition' →
        ((∃ msg, restart name config env = Except.error (Error.Io msg)) ↔
          ∃ msg, env (restartCommand composition'.work) = RunResult.ioError msg)
        ∧ ((∃ s t, restart name config env = Except.error (Error.PullFailed s t)) ↔
          ∃ out, env (restartCommand composition'.work) = RunResult.finished out ∧
            out.success = false)
        ∧ (restart name config env = Except.ok (200, "Success\n") ↔
          ∃ out, env (restartCommand composition'.work) = RunResult.finished out ∧
            out.success = true) := by
      intro composition' hc
      injection hc with hcc
      subst hcc
      cases he : env (restartCommand composition.work) with
      | ioError msg =>
        have hr : restart name config env = Except.error (Error.Io msg) := by
          simp [restart, h, he]
        refine ⟨by simp [hr, he], by simp [hr, he], by simp [hr, he]⟩
      | finished out =>
        cases hs : out.success with
        | false =>
          have hr : restart name config env = Except.error
              (Error.PullFailed (fromUtf8Lossy out.stdout) (fromUtf8Lossy out.stderr)) := by
            simp [restart, h, he, hs]
          refine ⟨by simp [hr, he], ?_, ?_⟩
          · simp only [hr, he]
            constructor
            · intro _
              exact ⟨out, rfl, hs⟩
            · intro _
              exact ⟨fromUtf8Lossy out.stdout, fromUtf8Lossy out.stderr, rfl⟩
          · simp only [hr, he]
            constructor
            · intro hx
              cases hx
            · rintro ⟨out', hout', hsucc⟩
              injection hout' with h2
              subst h2
              rw [hs] at hsucc
              cases hsucc
        | true =>
          have hr : restart name config env = Except.ok (200, "Success\n") := by
            simp [restart, h, he, hs]
          refine ⟨by simp [hr, he], ?_, by simp [hr, he, hs]⟩
          simp only [hr, he]
          constructor
          · rintro ⟨s, t, hx⟩
            cases hx
          · rintro ⟨out', hout', hsucc⟩
            injection hout' with h2
            subst h2
            rw [hs] at hsucc
            cases hsucc
    have hfirst : ¬ restart name config env = Except.error (Error.NoComposition name) := by
      cases he : env (restartCommand composition.work) with
      | ioError msg => simp [restart, h, he]
      | finished out =>
        cases hs : out.success with
        | false => simp [restart, h, he, hs]
        | true => simp [restart, h, he, hs]
    refine ⟨by simp [hfirst, h], hiff, ?_⟩
    cases he : env (restartCommand composition.work) with
    | ioError msg =>
      exact Or.inr (Or.inr (Or.inl ⟨msg, by simp [restart, h, he]⟩))
    | finished out =>
      cases hs : out.success with
      | false =>
        exact Or.inr (Or.inr (Or.inr
          ⟨fromUtf8Lossy out.stdout, fromUtf8Lossy out.stderr, by simp [restart, h, he, hs]⟩))
      | true =>
        exact Or.inl (by simp [restart, h, he, hs])

/-- Witness for C3: in a concrete environment where the process succeeds, the
success case of the classification applies. -/
theorem restart_outcomes_exhaustive_witness :
    restart "app" cfgW envOk = Except.ok (200, "Success\n") :=
  ((restart_outcomes_exhaustive "app" cfgW envOk).2.1 ⟨"/srv/app"⟩ rfl).2.2.mpr
    ⟨⟨true, [], []⟩, rfl, rfl⟩

/-- Claim C4: for an authenticated request, success maps to 200 with the
fixed body, an unknown name to 404 with a body naming the requested segment,
and a failed pull or an OS error to 500 with a diagnostic body. -/
theorem authenticated_response_mapping (method path : String)
    (header : Option String) (config : Config) (env : Command → RunResult)
    (hauth : extractBearer header = some config.token) :
    (∀ r, restart path config env = Except.ok r →
      (serveRequest method header path config env).1 = ⟨200, "Success\n"⟩)
    ∧ (∀ n, restart path config env = Except.error (Error.NoComposition n) →
      (serveRequest method header path config env).1 =
        ⟨404, "No composition found for path `" ++ n ++ "`\n"⟩)
    ∧ (∀ s t, restart path config env = Except.error (Error.PullFailed s t) →
      (serveRequest method header path config env).1 = ⟨500, "Docker pull failed\n"⟩)
    ∧ (∀ msg, restart path config env = Except.error (Error.Io msg) →
      (serveRequest method header path config env).1 = ⟨500, "I/O error\n"⟩) := by
  refine ⟨?_, ?_, ?_, ?_⟩
  · intro r hr
    simp [serveRequest, restart_web, hauth, hr]
  · intro n hr
    simp [serveRequest, restart_web, hauth, hr, Error.intoResponse, Error.status,
      Error.display]
  · intro s t hr
    simp [serveRequest, restart_web, hauth, hr, Error.intoResponse, Error.status,
      Error.display]
  · intro msg hr
    simp [serveRequest, restart_web, hauth, hr, Error.intoResponse, Error.status,
      Error.display]

/-- Witness for C4: a concrete authenticated request against a registered
composition whose redeploy succeeds gets 200 with the fixed body. -/
theorem authenticated_response_mapping_witness :
    (serveRequest "GET" (some "Bearer secret") "app" cfgW envOk).1 =
      ⟨200, "Success\n"⟩ :=
  (authenticated_response_mapping "GET" "app" (some "Bearer secret") cfgW envOk
    (by rfl)).1 (200, "Success\n") rfl

/-- Claim C2 (code bug): the redeploy and prune children are created with
`spawn()` and no `.stdout`/`.stderr` configuration (main.rs 84-91 and
119-124), which default to inherit, and `wait_with_output` collects only
from piped handles — so the `PullFailed` and `PruneFailed` values always
carry empty strings, never the output the process produced.  Evaluated at a
failing input: a child that writes "boom" to its standard error and exits
non-zero yields error values carrying "", not "boom". -/
theorem pull_failure_loses_output :
    restart "app" cfgW (runInherited childEnvBoom) =
      Except.error (Error.PullFailed "" "")
    ∧ do_prune (runInherited childEnvBoom) =
      Except.error (Error.PruneFailed "" "")
    ∧ fromUtf8Lossy childBoom.writtenStderr = "boom"
    ∧ ("" : String) ≠ "boom" :=
  ⟨rfl, rfl, rfl, by decide⟩

/-- Counterexample to C1 as stated: a request with no Authorization header at
all is rejected by the extractor with status 400, not 401. -/
theorem missing_auth_header_not_unauthorized :
    (serveRequest "POST" none "app" cfgC1 envOk).1.status = 400 ∧ (400 : Nat) ≠ 401 :=
  ⟨rfl, by decide⟩

/-- Claim C1 as amended: a request whose Authorization header parses as a
Bearer credential with a token different from the configured one gets 401,
regardless of method, path and whether the path names a composition; a
request whose header is missing or does not parse is rejected by the
extractor with 400 before the handler runs. -/
theorem auth_mismatch_unauthorized (method path : String) (header : Option String)
    (config : Config) (env : Command → RunResult) :
    (∀ tok, extractBearer header = some tok → tok ≠ config.token →
      (serveRequest method header path config env).1 =
        ⟨401, "Unauthorized user attempted to access server\n"⟩)
    ∧ (extractBearer header = none →
      (serveRequest method header path config env).1.status = 400) := by
  constructor
  · intro tok he hne
    have hne' : config.token ≠ tok := fun hh => hne hh.symm
    simp [serveRequest, restart_web, he, hne', Error.intoResponse, Error.status,
      Error.display]
  · intro he
    simp [serveRequest, he]

/-- Witness for the amended C1: a concrete request with a wrong bearer token
gets 401 with the unauthorized body. -/
theorem auth_mismatch_unauthorized_witness :
    (serveRequest "GET" (some "Bearer wrong") "app" cfgC1 envOk).1 =
      ⟨401, "Unauthorized user attempted to access server\n"⟩ :=
  (auth_mismatch_unauthorized "GET" "app" (some "Bearer wrong") cfgC1 envOk).1
    "wrong" (by rfl) (by decide)

/-- The loop fires exactly one tick per iteration. -/
theorem loopFires_length (period : Nat) :
    ∀ (durs : List Nat) (deadline t : Nat),
      (loopFires period deadline t durs).length = durs.length
  | [], _, _ => rfl
  | _ :: durs, deadline, t => by
    simp [loopFires, loopFires_length period durs]

/-- The first tick of a run never fires before the pending deadline. -/
theorem loopFires_head_ge (period deadline t : Nat) (durs : List Nat) :
    ∀ a, (loopFires period deadline t durs).head? = some a → deadline ≤ a := by
  cases durs with
  | nil =>
    intro a ha
    simp [loopFires] at ha
  | cons dur durs =>
    intro a ha
    simp only [loopFires, List.head?_cons, Option.some.injEq] at ha
    by_cases hd : deadline ≤ t
    · simp [tickWait, hd] at ha
      omega
    · simp [tickWait, hd] at ha
      omega

/-- Consecutive tick fires of one loop are always at least a full period
apart: overruns are absorbed, never answered with a catch-up burst. -/
theorem loopFires_chain (period : Nat) :
    ∀ (durs : List Nat) (deadline t : Nat),
      List.Chain' (fun a b => a + period ≤ b) (loopFires period deadline t durs)
  | [], _, _ => List.chain'_nil
  | dur :: durs, deadline, t => by
    rw [loopFires]
    apply List.chain'_cons'.mpr
    refine ⟨?_, loopFires_chain period durs _ _⟩
    intro b hb
    have h2 := loopFires_head_ge period (tickWait period deadline t).2
      ((tickWait period deadline t).1 + dur) durs b (Option.mem_def.mp hb)
    have h3 : (tickWait period deadline t).2 = (tickWait period deadline t).1 + period := by
      by_cases hd : deadline ≤ t <;> simp [tickWait, hd]
    omega

/-- Claim C6: with the Delay missed-tick policy, a run of the loop fires
exactly one tick per wait point; when the previous body overran the pending
deadline the next tick fires immediately at the wait point; and fires are
always at least one period apart, so missed ticks are coalesced and never
accumulate into a burst. -/
theorem delay_tick_coalescing (period deadline t dur : Nat) (durs : List Nat)
    (h : deadline ≤ t) :
    (loopFires period deadline t (dur :: durs)).length = durs.length + 1
    ∧ (loopFires period deadline t (dur :: durs)).head? = some t
    ∧ List.Chain' (fun a b => a + period ≤ b)
        (loopFires period deadline t (dur :: durs)) := by
  refine ⟨?_, ?_, loopFires_chain period (dur :: durs) deadline t⟩
  · simp [loopFires_length period (dur :: durs) deadline t]
  · simp [loopFires, tickWait, h]

/-- Witness for C6: a concrete overrun (deadline 5, next wait at time 9,
period 2) fires once, immediately, and later fires stay a period apart. -/
theorem delay_tick_coalescing_witness :
    (loopFires 2 5 9 (3 :: [0, 0])).length = [0, 0].length + 1
    ∧ (loopFires 2 5 9 (3 :: [0, 0])).head? = some 9
    ∧ List.Chain' (fun a b => a + 2 ≤ b) (loopFires 2 5 9 (3 :: [0, 0])) :=
  delay_tick_coalescing 2 5 9 3 [0, 0] (by decide)

/-- Claim C7: one sweep attempts every registered name exactly once, in
registry order, for every process environment — so one composition's failure
never prevents the remaining attempts — and every failing attempt's error is
written to the sweep's diagnostic log. -/
theorem sweep_attempts_all (config : Config) (env : Command → RunResult)
    (h : (config.extra.map Prod.fst).Nodup) :
    (restart_all_sweep config env).map Prod.fst = config.extra.map Prod.fst
    ∧ (∀ name, name ∈ config.extra.map Prod.fst →
        ((restart_all_sweep config env).map Prod.fst).count name = 1
        ∧ (name, restart name config env) ∈ restart_all_sweep config env)
    ∧ (∀ name e, (name, Except.error e) ∈ restart_all_sweep config env →
        e ∈ sweepLog config env) := by
  have hmap : (restart_all_sweep config env).map Prod.fst = config.extra.map Prod.fst := by
    simp [restart_all_sweep, List.map_map, Function.comp]
  refine ⟨hmap, ?_, ?_⟩
  · intro name hname
    refine ⟨?_, ?_⟩
    · rw [hmap]
      exact List.count_eq_one_of_mem h hname
    · exact List.mem_map_of_mem (fun n => (n, restart n config env)) hname
  · intro name e hmem
    simp only [sweepLog, List.mem_filterMap]
    exact ⟨(name, Except.error e), hmem, rfl⟩

/-- Witness for C7: in a concrete registry with one entry, the sweep attempts
exactly that name even though its redeploy fails, and logs the failure. -/
theorem sweep_attempts_all_witness :
    (restart_all_sweep cfgW envFail).map Prod.fst = ["app"]
    ∧ ((restart_all_sweep cfgW envFail).map Prod.fst).count "app" = 1
    ∧ Error.PullFailed (fromUtf8Lossy outFail.stdout) (fromUtf8Lossy outFail.stderr) ∈
        sweepLog cfgW envFail := by
  have h := sweep_attempts_all cfgW envFail (by decide)
  refine ⟨h.1, (h.2.1 "app" (by decide)).1, ?_⟩
  exact h.2.2 "app" _ (by exact (h.2.1 "app" (by decide)).2)

/-- Claim C9: a periodic worker is spawned if and only if its interval is
present in the configuration; with an absent interval the corresponding task
is never started at all. -/
theorem tasks_spawned_iff_interval (config : Config) :
    ((∃ s, Worker.restartAll s ∈ spawnWorkers config) ↔
      config.force_update_interval.isSome = true)
    ∧ (∀ s, config.force_update_interval = some s →
      Worker.restartAll s ∈ spawnWorkers config)
    ∧ ((∃ s, Worker.pruneTask s ∈ spawnWorkers config) ↔
      config.prune_interval.isSome = true)
    ∧ (∀ s, config.prune_interval = some s →
      Worker.pruneTask s ∈ spawnWorkers config)
    ∧ (config.force_update_interval = none →
      ∀ s, Worker.restartAll s ∉ spawnWorkers config)
    ∧ (config.prune_interval = none →
      ∀ s, Worker.pruneTask s ∉ spawnWorkers config) := by
  cases h1 : config.force_update_interval with
  | none =>
    cases h2 : config.prune_interval with
    | none => simp [spawnWorkers, h1, h2]
    | some s2 => simp [spawnWorkers, h1, h2]
  | some s1 =>
    cases h2 : config.prune_interval with
    | none => simp [spawnWorkers, h1, h2]
    | some s2 => simp [spawnWorkers, h1, h2]

/-- Witness for C9: with both intervals configured, both workers are
spawned. -/
theorem tasks_spawned_iff_interval_witness :
    Worker.restartAll 300 ∈ spawnWorkers cfgW
    ∧ Worker.pruneTask 3600 ∈ spawnWorkers cfgW := by
  have h := tasks_spawned_iff_interval cfgW
  exact ⟨h.2.1 300 rfl, h.2.2.2.1 3600 rfl⟩

/-- In an association list with distinct keys, a member pair is what lookup
returns for its key. -/
theorem lookup_eq_of_mem_of_nodup (l : List (String × ManagedComposition))
    (k : String) (c : ManagedComposition)
    (hnd : (l.map Prod.fst).Nodup) (h : (k, c) ∈ l) :
    List.lookup k l = some c := by
  induction l with
  | nil => cases h
  | cons p t ih =>
    obtain ⟨a, b⟩ := p
    have hnd2 : (a :: t.map Prod.fst).Nodup := by simpa using hnd
    rcases List.mem_cons.mp h with heq | hmem
    · injection heq with h1 h2
      subst h1
      subst h2
      simp [List.lookup]
    · have hk : (k == a) = false := by
        apply beq_eq_false_iff_ne.mpr
        intro hka
        subst hka
        exact (List.nodup_cons.mp hnd2).1 (List.mem_map_of_mem Prod.fst hmem)
      simp only [List.lookup, hk]
      exact ih (List.nodup_cons.mp hnd2).2 hmem

/-- Lookup misses every key that no pair of the list carries. -/
theorem lookup_none_of_keys (l : List (String × ManagedComposition)) (k : String)
    (h : ∀ q ∈ l, q.1 ≠ k) : List.lookup k l = none := by
  induction l with
  | nil => rfl
  | cons p t ih =>
    obtain ⟨a, b⟩ := p
    have hk : (k == a) = false := by
      apply beq_eq_false_iff_ne.mpr
      intro hka
      exact h (a, b) (List.mem_cons_self _ _) hka.symm
    simp only [List.lookup, hk]
    exact ih fun q hq => h q (List.mem_cons_of_mem _ hq)

/-- When every non-reserved entry of a document parses as a composition,
the flattened map parses, its keys are exactly the non-reserved keys in
order, and it contains each entry's parsed composition. -/
theorem parseExtra_spec (doc : List (String × TomlValue))
    (h : ∀ p ∈ doc, p.1 ∉ reservedKeys → ∃ c, parseComposition p.2 = some c) :
    ∃ ex, parseExtra doc = some ex
      ∧ ex.map Prod.fst = (nonReserved doc).map Prod.fst
      ∧ ∀ k v, (k, v) ∈ doc → k ∉ reservedKeys →
          ∀ c, parseComposition v = some c → (k, c) ∈ ex := by
  induction doc with
  | nil => exact ⟨[], rfl, rfl, by simp⟩
  | cons p rest ih =>
    obtain ⟨k, v⟩ := p
    obtain ⟨ex, hex, hmap, hmem⟩ := ih fun q hq => h q (List.mem_cons_of_mem _ hq)
    by_cases hk : k ∈ reservedKeys
    · refine ⟨ex, ?_, ?_, ?_⟩
      · simpa [parseExtra, hk] using hex
      · rw [hmap]
        simp [nonReserved, List.filter_cons, hk]
      · intro k' v' hkv hk' c hpc
        rcases List.mem_cons.mp hkv with heq | hmem2
        · injection heq with h1 h2
          subst h1
          exact absurd hk hk'
        · exact hmem k' v' hmem2 hk' c hpc
    · obtain ⟨c0, hc0⟩ := h (k, v) (List.mem_cons_self _ _) hk
      refine ⟨(k, c0) :: ex, ?_, ?_, ?_⟩
      · simp [parseExtra, hk, hc0, hex]
      · simp only [List.map_cons]
        rw [hmap]
        simp [nonReserved, List.filter_cons, hk]
      · intro k' v' hkv hk' c hpc
        rcases List.mem_cons.mp hkv with heq | hmem2
        · injection heq with h1 h2
          subst h1
          subst h2
          rw [hc0] at hpc
          injection hpc with h3
          subst h3
          exact List.mem_cons_self _ _
        · exact List.mem_cons_of_mem _ (hmem k' v' hmem2 hk' c hpc)

/-- Every key of a successfully parsed flattened map is non-reserved: the
struct fields consume the reserved keys. -/
theorem parseExtra_keys_not_reserved (doc : List (String × TomlValue)) :
    ∀ ex, parseExtra doc = some ex → ∀ q ∈ ex, q.1 ∉ reservedKeys := by
  induction doc with
  | nil =>
    intro ex hex q hq
    injection hex with h1
    subst h1
    cases hq
  | cons p rest ih =>
    obtain ⟨k, v⟩ := p
    intro ex hex q hq
    by_cases hk : k ∈ reservedKeys
    · simp only [parseExtra, if_pos hk] at hex
      exact ih ex hex q hq
    · simp only [parseExtra, if_neg hk] at hex
      cases hpc : parseComposition v with
      | none => rw [hpc] at hex; simp at hex
      | some c =>
        cases hpe : parseExtra rest with
        | none => rw [hpc, hpe] at hex; simp at hex
        | some cs =>
          rw [hpc, hpe] at hex
          injection hex with h1
          subst h1
          rcases List.mem_cons.mp hq with heq | hmem
          · subst heq
            exact hk
          · exact ih cs hpe q hmem

/-- A successfully loaded configuration's registry is the parsed flattened
map of its document. -/
theorem deserializeConfig_extra (doc : List (String × TomlValue)) (cfg : Config)
    (h : deserializeConfig doc = some cfg) : parseExtra doc = some cfg.extra := by
  unfold deserializeConfig at h
  cases h1 : parsePort (List.lookup "port" doc) <;> rw [h1] at h
  · simp at h
  · cases h2 : parseToken (List.lookup "token" doc) <;> rw [h2] at h
    · simp at h
    · cases h3 : parseInterval (List.lookup "force_update_interval" doc) <;> rw [h3] at h
      · simp at h
      · cases h4 : parseInterval (List.lookup "prune_interval" doc) <;> rw [h4] at h
        · simp at h
        · cases h5 : parseExtra doc <;> rw [h5] at h
          · simp at h
          · simp only [Option.some.injEq] at h
            subst h
            rfl

/-- Claim C8: a document with token present, port absent, well-typed optional
intervals, unique keys and N non-reserved composition entries (each a table
with a `work` string) loads to a configuration whose registry holds exactly
those N names in order, where each name looks up to its declared working
directory, and whose port defaults to 8080. -/
theorem config_roundtrip (doc : List (String × TomlValue))
    (hnd : (doc.map Prod.fst).Nodup)
    (hport : List.lookup "port" doc = none)
    (htok : ∃ s, List.lookup "token" doc = some (TomlValue.str s))
    (hfui : (parseInterval (List.lookup "force_update_interval" doc)).isSome = true)
    (hpru : (parseInterval (List.lookup "prune_interval" doc)).isSome = true)
    (hcomp : ∀ p ∈ doc, p.1 ∉ reservedKeys → ∃ c, parseComposition p.2 = some c) :
    ∃ cfg, deserializeConfig doc = some cfg
      ∧ cfg.port = 8080
      ∧ cfg.extra.map Prod.fst = (nonReserved doc).map Prod.fst
      ∧ cfg.extra.length = (nonReserved doc).length
      ∧ ∀ k v c, (k, v) ∈ doc → k ∉ reservedKeys → parseComposition v = some c →
          List.lookup k cfg.extra = some c := by
  obtain ⟨ex, hex, hmap, hmem⟩ := parseExtra_spec doc hcomp
  obtain ⟨s, hs⟩ := htok
  obtain ⟨fui, hfui2⟩ := Option.isSome_iff_exists.mp hfui
  obtain ⟨pru, hpru2⟩ := Option.isSome_iff_exists.mp hpru
  have hnodup : (ex.map Prod.fst).Nodup := by
    rw [hmap]
    exact List.Nodup.sublist (List.Sublist.map Prod.fst (List.filter_sublist doc)) hnd
  refine ⟨⟨8080, s, fui, pru, ex⟩, ?_, rfl, hmap, ?_, ?_⟩
  · simp [deserializeConfig, hport, hs, hfui2, hpru2, hex, parsePort, parseToken]
  · have := congrArg List.length hmap
    simpa [nonReserved] using this
  · intro k v c hkv hk hpc
    exact lookup_eq_of_mem_of_nodup ex k c hnodup (hmem k v hkv hk c hpc)

/-- Witness for C8: the concrete document `docW` loads, defaults the port,
and registers exactly its one composition entry. -/
theorem config_roundtrip_witness :
    ∃ cfg, deserializeConfig docW = some cfg
      ∧ cfg.port = 8080
      ∧ cfg.extra.map Prod.fst = (nonReserved docW).map Prod.fst
      ∧ cfg.extra.length = (nonReserved docW).length
      ∧ ∀ k v c, (k, v) ∈ docW → k ∉ reservedKeys → parseComposition v = some c →
          List.lookup k cfg.extra = some c :=
  config_roundtrip docW (by decide) rfl ⟨"secret", rfl⟩ rfl rfl (by
    intro p hp hres
    simp only [docW, List.mem_cons, List.not_mem_nil, or_false] at hp
    rcases hp with rfl | rfl
    · exact absurd (by decide) hres
    · exact ⟨⟨"/srv/app"⟩, rfl⟩)

/-- Claim C10: no reserved top-level key is ever a registered composition
name in a loaded configuration, so an authenticated request for a reserved
name gets 404 with a body naming it. -/
theorem reserved_keys_not_compositions (doc : List (String × TomlValue))
    (cfg : Config) (h : deserializeConfig doc = some cfg) (k : String)
    (hk : k ∈ reservedKeys) (method : String) (env : Command → RunResult) :
    List.lookup k cfg.extra = none
    ∧ (serveRequest method (some ("Bearer " ++ cfg.token)) k cfg env).1 =
      ⟨404, "No composition found for path `" ++ k ++ "`\n"⟩ := by
  have hex := deserializeConfig_extra doc cfg h
  have hkeys := parseExtra_keys_not_reserved doc cfg.extra hex
  have hnone : List.lookup k cfg.extra = none := by
    apply lookup_none_of_keys
    intro q hq hqk
    exact hkeys q hq (by rw [hqk]; exact hk)
  refine ⟨hnone, ?_⟩
  have hb := extractBearer_bearer cfg.token
  have hr : restart k cfg env = Except.error (Error.NoComposition k) := by
    simp [restart, hnone]
  simp [serveRequest, restart_web, hb, hr, Error.intoResponse, Error.status,
    Error.display]

/-- Witness for C10: in the configuration loaded from `docW`, the reserved
name "port" is not registered and an authenticated request for it gets 404. -/
theorem reserved_keys_not_compositions_witness :
    List.lookup "port" cfgFromDocW.extra = none
    ∧ (serveRequest "GET" (some ("Bearer " ++ cfgFromDocW.token)) "port"
        cfgFromDocW envOk).1 =
      ⟨404, "No composition found for path `" ++ "port" ++ "`\n"⟩ :=
  reserved_keys_not_compositions docW cfgFromDocW rfl "port" (by decide) "GET" envOk

end Conductor
